import Mathlib

/-!
Shallow embedding of the council writing-assistant core
(`controller.py`, `filter.py`): the decision-line parser, the planner
(`WritingAssistantController.get_plan`), and the aggregation / termination
step (`WritingAssistantController.select_responses`, duplicated as
`WritingAssistantFilter._execute` over an `AppState`).

Python strings are modelled as Lean `String` (a `List Char`), Python `int`
as `Int`, Python `float` configuration values as `ℚ`, and a raising call
as an `Option` result.  Helper functions named `py...` model the Python
builtins the code relies on (`str.split`, `int(...)`, `str.splitlines`,
stable `list.sort(key, reverse=True)`, `str(list_of_str)`); Python string
builtins are modelled for ASCII text (non-ASCII digits, exotic unicode
line breaks, and `\xNN` repr escapes for control characters other than
tab/newline/return are not modelled).
-/

namespace Council

/-- `council.chains.Chain`: the registry entry the controller delegates to
(only `name` and `description` are read by the core). -/
structure Chain where
  name : String
  description : String
deriving DecidableEq, Repr

/-- Python `s.split(sep)` for a one-character separator, on the character
list: splits on every occurrence of `sep`; `n` separators yield `n + 1`
fields, so the result is never empty (`"".split(";") == [""]`). -/
def pySplitChar (sep : Char) : List Char → List (List Char)
  | [] => [[]]
  | c :: rest =>
    if c = sep then [] :: pySplitChar sep rest
    else
      match pySplitChar sep rest with
      | f :: fs => (c :: f) :: fs
      | [] => [[c]]

/-- Python `s.split(sep)` for a one-character separator, on `String`. -/
def pySplit (s : String) (sep : Char) : List String :=
  (pySplitChar sep s.data).map String.mk

/-- The six ASCII whitespace characters stripped by Python `int(str)`. -/
def isPySpace (c : Char) : Bool :=
  c = ' ' || c = '\t' || c = '\n' || c = '\r' || c = '\x0b' || c = '\x0c'

/-- Strip leading and trailing Python whitespace from a character list. -/
def pyStrip (l : List Char) : List Char :=
  ((l.dropWhile isPySpace).reverse.dropWhile isPySpace).reverse

/-- Digit tail of the CPython decimal grammar after at least one digit has
been read into `acc`: further digits, with single underscores allowed only
between digits. -/
def pyDigits (acc : Nat) : List Char → Option Nat
  | [] => some acc
  | '_' :: c :: rest =>
    if c.isDigit then pyDigits (acc * 10 + (c.toNat - '0'.toNat)) rest else none
  | ['_'] => none
  | c :: rest =>
    if c.isDigit then pyDigits (acc * 10 + (c.toNat - '0'.toNat)) rest else none

/-- CPython `int(str)` after whitespace stripping: optional sign, then a
nonempty underscore-separated decimal digit run. -/
def pyIntOfChars : List Char → Option Int
  | [] => none
  | c :: rest =>
    let signAndDigits : Int × List Char :=
      if c = '-' then (-1, rest)
      else if c = '+' then (1, rest)
      else (1, c :: rest)
    match signAndDigits.2 with
    | [] => none
    | d :: rest2 =>
      if d.isDigit then
        (pyDigits (d.toNat - '0'.toNat) rest2).map (fun n => signAndDigits.1 * (n : Int))
      else none

/-- Python `int(s)` on a string: raises (here: `none`) unless the stripped
text is a signed decimal literal. -/
def pyInt (s : String) : Option Int :=
  pyIntOfChars (pyStrip s.data)

/--
`WritingAssistantController.parse_line(line, chains)`:

```
(name, score, instruction) = line.split(";")[:3]
chain = next(filter(lambda item: item.name == name, chains))
result = Option.some((chain, int(score), instruction))
```
wrapped in `try/except` returning `Option.none()` on any failure (too few
fields for the tuple unpacking, no chain of that name, or a score that
`int` rejects).
-/
def parseLine (line : String) (chains : List Chain) : Option (Chain × Int × String) :=
  match (pySplit line ';').take 3 with
  | [name, score, instruction] =>
    match chains.find? (fun item => item.name == name) with
    | some chain =>
      match pyInt score with
      | some n => some (chain, n, instruction)
      | none => none
    | none => none
  | _ => none

/-- Python `str.splitlines()` on a character list: splits on `\n`, `\r\n`
and `\r`, with no trailing empty line for text ending in a line break. -/
def pySplitlinesAux (acc : List Char) : List Char → List (List Char)
  | [] => if acc.isEmpty then [] else [acc.reverse]
  | '\r' :: '\n' :: rest => acc.reverse :: pySplitlinesAux [] rest
  | '\r' :: rest => acc.reverse :: pySplitlinesAux [] rest
  | '\n' :: rest => acc.reverse :: pySplitlinesAux [] rest
  | c :: rest => pySplitlinesAux (c :: acc) rest

/-- Python `s.splitlines()` on `String`. -/
def pySplitlines (s : String) : List String :=
  (pySplitlinesAux [] s.data).map String.mk

/-- Stable descending insertion into a descending-sorted list: `a`, which
comes earlier in the original order than everything in `l`, is placed
before the first element whose key is not larger — so before every
element of equal key. -/
def insertDesc {α : Type} (key : α → ℚ) (a : α) : List α → List α
  | [] => [a]
  | b :: l => if key b ≤ key a then a :: b :: l else b :: insertDesc key a l

/-- Python `list.sort(key=key, reverse=True)` / `sorted(..., reverse=True)`:
a stable sort, descending by key — elements with equal keys keep their
original relative order.  (A stable descending sort is unique, so this
insertion sort has exactly the Python semantics.) -/
def pySortDesc {α : Type} (l : List α) (key : α → ℚ) : List α :=
  match l with
  | [] => []
  | x :: rest => insertDesc key x (pySortDesc rest key)

/-- The state of a `WritingAssistantController` (equally, the `AppState`
shared with `WritingAssistantFilter`): the configuration passed to
`__init__` plus the mutable fields `_article`, `_outline`, `_iteration`.
The `LLMBase` held by the controller is modelled as an explicit oracle
argument of each operation. -/
structure Controller where
  responseThreshold : ℚ
  topK : Nat
  article : String
  outline : String
  iteration : Nat
deriving DecidableEq, Repr

/-- The `initial_state` chain message built by `get_plan`: the instruction
as message text, with the data snapshot `{article, outline, iteration}`. -/
structure InitialState where
  message : String
  article : String
  outline : String
  iteration : Nat
deriving DecidableEq, Repr

/-- `council.controllers.ExecutionUnit` as built by `get_plan` (the opaque
`budget` pass-through argument is not modelled). -/
structure ExecutionUnit where
  chain : Chain
  initialState : InitialState
  name : String
deriving DecidableEq, Repr

/-- The non-empty lines of the planning oracle's reply:
`parsed = response.splitlines(); parsed = [p for p in parsed if len(p) > 0]`. -/
def planLines (response : String) : List String :=
  (pySplitlines response).filter (fun p => p.length > 0)

/-- The parsed triples that pass the score threshold, in reply-line order:
`[r.unwrap() for r in parsed if r.is_some() and r.unwrap()[1] > self._response_threshold]`. -/
def planFiltered (ctrl : Controller) (chains : List Chain) (response : String) :
    List (Chain × Int × String) :=
  (((planLines response).map (fun line => parseLine line chains)).filterMap id).filter
    (fun r => ctrl.responseThreshold < (r.2.1 : ℚ))

/-- The threshold-passing triples after
`filtered.sort(key=lambda item: item[1], reverse=True)`. -/
def planSorted (ctrl : Controller) (chains : List Chain) (response : String) :
    List (Chain × Int × String) :=
  pySortDesc (planFiltered ctrl chains response) (fun item => (item.2.1 : ℚ))

/-- One `ExecutionUnit` of the plan, built from a parsed triple by the loop
body of `get_plan` (`ctrl` is the post-increment controller state read for
the `initial_state` snapshot and the unit name). -/
def mkExecUnit (ctrl : Controller) (t : Chain × Int × String) : ExecutionUnit :=
  { chain := t.1
    initialState :=
      { message := t.2.2
        article := ctrl.article
        outline := ctrl.outline
        iteration := ctrl.iteration }
    name := t.1.name ++ ": " ++ t.2.2 }

/-- `WritingAssistantController.get_plan`, given the planning oracle's
reply text: increments `_iteration`, parses the reply into scored triples,
drops those at or below the threshold, returns `[]` if none are left, and
otherwise sorts descending by score (stable), builds one `ExecutionUnit`
per triple, and truncates to the first `_top_k` units. -/
def getPlan (ctrl : Controller) (chains : List Chain) (response : String) :
    Controller × List ExecutionUnit :=
  let ctrl' := { ctrl with iteration := ctrl.iteration + 1 }
  let filtered := planFiltered ctrl chains response
  if filtered.length = 0 then (ctrl', [])
  else
    (ctrl', ((planSorted ctrl chains response).map (mkExecUnit ctrl')).take ctrl.topK)

/-- One entry of the chat history, formatted by the code as
`f"{m.kind}: {m.message}"`. -/
structure ChatEntry where
  kind : String
  message : String
deriving DecidableEq, Repr

/-- The `conversation_history` list built at the top of `select_responses`
and `_execute`. -/
def conversationLines (chatHistory : List ChatEntry) : List String :=
  chatHistory.map (fun m => m.kind ++ ": " ++ m.message)

/-- A `ChatMessage` as seen by the aggregation step: its `source` skill
name and the entries of its `data` dict that the code reads
(`data["iteration"]`, and `data["article"]` / `data["outline"]` as set by
`SectionWriterSkill` / `OutlineWriterSkill`), modelled as total fields. -/
structure EvalMessage where
  source : String
  iteration : Nat
  article : String
  outline : String
deriving DecidableEq, Repr

/-- A `ScoredChatMessage` from the evaluator: the evaluator's score and
the wrapped message. -/
structure ScoredResult where
  score : ℚ
  message : EvalMessage
deriving DecidableEq, Repr

/-- A `ScoredChatMessage` produced by the aggregation step itself. -/
structure ScoredMessage where
  message : String
  score : ℚ
deriving DecidableEq, Repr

/-- One LLM request: the system prompt and the substituted user prompt. -/
structure OracleCall where
  system : String
  user : String
deriving DecidableEq, Repr

/-- The LLM as seen by the aggregation step: `none` models
`post_chat_request` raising, `some r` a reply whose `first_choice` is `r`. -/
def Oracle : Type := OracleCall → Option String

/-- One character of CPython `repr` of a string with chosen quote `q`
(escapes for control characters other than tab/newline/return are not
modelled). -/
def pyReprChar (q : Char) (c : Char) : List Char :=
  if c = '\\' then ['\\', '\\']
  else if c = q then ['\\', q]
  else if c = '\n' then ['\\', 'n']
  else if c = '\r' then ['\\', 'r']
  else if c = '\t' then ['\\', 't']
  else [c]

/-- CPython `repr` of a string: single-quoted, or double-quoted when the
text holds a single quote but no double quote. -/
def pyRepr (s : String) : String :=
  let q : Char := if s.data.contains '\'' && !(s.data.contains '"') then '"' else '\''
  String.mk ((q :: (s.data.flatMap (pyReprChar q))) ++ [q])

/-- Python `str(...)` of a list of strings, as interpolated by
`Template.substitute` for the list-valued template variables. -/
def pyStrList (l : List String) : String :=
  "[" ++ String.intercalate ", " (l.map pyRepr) ++ "]"

/-- System prompt of the outline-merge request. -/
def outlineAggSystemPrompt : String :=
  "You are an expert-level AI writing editor. Your role is to aggregate multiple suggestions for an article outline into a single one."

/-- System prompt of the article-merge request. -/
def articleAggSystemPrompt : String :=
  "You are an expert-level AI writing editor. Your role is to aggregate multiple partial articles into a single, complete article."

/-- System prompt of the keep-editing decision request. -/
def editingDecisionSystemPrompt : String :=
  "You are an expert-level AI writing editor. Your role is to decide whether to keep editing the ARTICLE."

/-- The outline-merge user prompt: the outline-aggregation `Template` with
`conversation_history`, `existing_outline`, `possible_outlines`
substituted (the two list-valued variables arrive already rendered by
`str`). -/
def outlineAggUserPrompt (conversationHistory existingOutline possibleOutlines : String) :
    String :=
  "\n        # Task Description\n        Your task is to combine one or more article outlines into a single one written in markdown format.\n\n        # Instructions\n        Read the CHAT HISTORY, EXISTING OUTLINE, and POSSIBLE OUTLINES. Then respond with a single article outline that best combines the POSSIBLE OUTLINES.\n\n        ## CONVERSATION HISTORY\n        "
    ++ conversationHistory
    ++ "\n\n        ## EXISTING OUTLINE\n        "
    ++ existingOutline
    ++ "\n\n        ## POSSIBLE OUTLINES\n        "
    ++ possibleOutlines
    ++ "\n\n        ## OUTLINE\n        ```markdown\n        "

/-- Text of the article-aggregation `Template` before
`$conversation_history`. -/
def articleAggSeg1 : String :=
  "\n        # Task Description\n        Your task is to combine one or more partial articles into a single one written in markdown format.\n\n        # Instructions\n        Read the CHAT HISTORY, ARTICLE OUTLINE, EXISTING ARTICLE, and PARTIAL ARTICLES. \n        Then respond with a single article that best combines and expands the PARTIAL ARTICLES.\n        The resulting ARTICLE should include all sections and subsections in the ARTICLE OUTLINE.\n\n        ## CONVERSATION HISTORY\n        "

/-- Text of the article-aggregation `Template` between
`$conversation_history` and `$article_outline`. -/
def articleAggSeg2 : String :=
  "\n\n        ## ARTICLE OUTLINE\n        "

/-- Text of the article-aggregation `Template` between `$article_outline`
and `$existing_article`. -/
def articleAggSeg3 : String :=
  "\n                                        \n        ## EXISTING ARTICLE\n        "

/-- Text of the article-aggregation `Template` between `$existing_article`
and `$partial_articles`. -/
def articleAggSeg4 : String :=
  "\n                                        \n        ## PARTIAL ARTICLES\n        "

/-- Text of the article-aggregation `Template` after `$partial_articles`. -/
def articleAggSeg5 : String :=
  "\n\n        ## ARTICLE\n        ```markdown\n        "

/-- The article-merge user prompt: the article-aggregation `Template` with
`conversation_history`, `article_outline`, `existing_article`,
`partial_articles` substituted. -/
def articleAggUserPrompt
    (conversationHistory articleOutline existingArticle partialArticles : String) : String :=
  articleAggSeg1 ++ conversationHistory ++ articleAggSeg2 ++ articleOutline
    ++ articleAggSeg3 ++ existingArticle ++ articleAggSeg4 ++ partialArticles
    ++ articleAggSeg5

/-- The keep-editing decision user prompt: the check-list `Template` with
`outline`, `article`, `conversation_history` substituted. -/
def editingDecisionUserPrompt (outline article conversationHistory : String) : String :=
  "\n        # Task Description\n        Your task is to decide whether:\n        1. To keep editing the ARTICLE, or\n        2. To return the article to the requesting agent.\n        \n        You will use a CHECK LIST to determine whether to KEEP EDITING.\n\n        # Instructions\n        Consider every item in the CHECK LIST.\n        If any item is true, KEEP EDITING.\n        You must be careful and accurate when completing the CHECK LIST.                    \n        \n        # CHECK LIST\n        - If the ARTICLE still has placeholders or empty sections, KEEP EDITING.\n        - If the ARTICLE is incoherent, KEEP EDITING.\n        - If there are ARTICLE subsections with fewer than three paragraphs, KEEP EDITING.\n        - If the ARTICLE does not include everything being requested in the CHAT HISTORY, KEEP EDITING.\n        - If the ARTICLE does not include every section and subsection in ARTICLE OUTLINE, KEEP EDITING.\n        - WORD COUNT: What is the ARTICLE\x27s word count?\n        - If the WORD COUNT is less than 1500 words, KEEP EDITING.\n        - SECTIONS and SUBSECTIONS: Does the ARTICLE contain every section and subsection in the ARTICLE OUTLINE?\n        - If the ARTICLE is missing SECTIONS or SUBSECTIONS from the ARTICLE OUTLINE, KEEP EDITING.\n        - If the ARTICLE has any sections or subsections with fewer than three detailed paragraphs, KEEP EDITING.\n\n        ## ARTICLE OUTLINE\n        "
    ++ outline
    ++ "\n\n        ## ARTICLE\n        <article>\n        "
    ++ article
    ++ "\n        </article>\n                                        \n        ## CONVERSATION HISTORY\n        "
    ++ conversationHistory
    ++ "\n\n        # Your Response (a list of all CHECK LIST results followed by exactly one of [\"KEEP EDITING\", \"RETURN TO REQUESTING AGENT\"])\n        "

/-- The evaluator results of the latest iteration, in descending-score
order, restricted to the current iteration:
`all_eval_results = sorted(context.evaluationHistory[-1], key=lambda x: x.score, reverse=True)`
followed by the loop keeping messages with
`message.data["iteration"] == self._iteration`. -/
def currentIterationResults (ctrl : Controller) (evalResults : List ScoredResult) :
    List EvalMessage :=
  ((pySortDesc evalResults (fun x => x.score)).map (fun sr => sr.message)).filter
    (fun m => m.iteration == ctrl.iteration)

/-- The `outlines` group: `data["outline"]` of every current-iteration
result whose `source` is `"OutlineWriterSkill"`, in descending-score
order. -/
def outlineCandidates (ctrl : Controller) (evalResults : List ScoredResult) : List String :=
  ((currentIterationResults ctrl evalResults).filter
    (fun m => m.source == "OutlineWriterSkill")).map (fun m => m.outline)

/-- The `articles` group: `data["article"]` of every current-iteration
result whose `source` is `"SectionWriterSkill"`, in descending-score
order. -/
def articleCandidates (ctrl : Controller) (evalResults : List ScoredResult) : List String :=
  ((currentIterationResults ctrl evalResults).filter
    (fun m => m.source == "SectionWriterSkill")).map (fun m => m.article)

/-- The outline-merge request composed by the aggregation step from the
state it runs in. -/
def outlineMergeCall (ctrl : Controller) (chatHistory : List ChatEntry)
    (outlines : List String) : OracleCall :=
  { system := outlineAggSystemPrompt
    user := outlineAggUserPrompt (pyStrList (conversationLines chatHistory)) ctrl.outline
      (pyStrList outlines) }

/-- The article-merge request composed by the aggregation step from the
state it runs in (its `article_outline` is the outline field at
composition time). -/
def articleMergeCall (ctrl : Controller) (chatHistory : List ChatEntry)
    (articles : List String) : OracleCall :=
  { system := articleAggSystemPrompt
    user := articleAggUserPrompt (pyStrList (conversationLines chatHistory)) ctrl.outline
      ctrl.article (pyStrList articles) }

/-- The keep-editing decision request composed at the end of the
aggregation step. -/
def editingDecisionCall (ctrl : Controller) (chatHistory : List ChatEntry) : OracleCall :=
  { system := editingDecisionSystemPrompt
    user := editingDecisionUserPrompt ctrl.outline ctrl.article
      (pyStrList (conversationLines chatHistory)) }

/-- `needle.isPrefixOf hay` on character lists, by direct comparison. -/
def listStartsWith : List Char → List Char → Bool
  | _, [] => true
  | [], _ :: _ => false
  | a :: as, b :: bs => a == b && listStartsWith as bs

/-- Python `needle in hay` (substring containment) on character lists. -/
def listContainsSub (needle : List Char) : List Char → Bool
  | [] => needle.isEmpty
  | c :: rest => listStartsWith (c :: rest) needle || listContainsSub needle rest

/-- Python `needle in hay` on strings. -/
def containsSubstr (hay needle : String) : Bool :=
  listContainsSub needle.data hay.data

/-- The outcome of one aggregation step: the controller state as mutated
so far, the LLM requests issued in order, and either the returned message
list or `none` when an LLM call raised (the exception propagates to the
caller with the mutations made before it kept). -/
structure AggOutcome where
  ctrl : Controller
  calls : List OracleCall
  output : Option (List ScoredMessage)
deriving DecidableEq, Repr

/-- Tail of `select_responses` / `_execute` from the keep-editing decision
on: one more LLM request, then `[]` when the reply contains
`"KEEP EDITING"` and otherwise the current article as a single
agent message scored `1.0`. -/
def selectResponsesDecide (ctrl : Controller) (chatHistory : List ChatEntry)
    (oracle : Oracle) (calls : List OracleCall) : AggOutcome :=
  let c := editingDecisionCall ctrl chatHistory
  match oracle c with
  | none => ⟨ctrl, calls ++ [c], none⟩
  | some response =>
    if containsSubstr response "KEEP EDITING" then ⟨ctrl, calls ++ [c], some []⟩
    else ⟨ctrl, calls ++ [c], some [⟨ctrl.article, 1⟩]⟩

/-- Middle of `select_responses` / `_execute`: the article aggregation
(`if len(articles) > 0`) followed by the keep-editing decision. -/
def selectResponsesArticle (ctrl : Controller) (chatHistory : List ChatEntry)
    (articles : List String) (oracle : Oracle) (calls : List OracleCall) : AggOutcome :=
  if articles.length > 0 then
    let c := articleMergeCall ctrl chatHistory articles
    match oracle c with
    | none => ⟨ctrl, calls ++ [c], none⟩
    | some response =>
      selectResponsesDecide { ctrl with article := response } chatHistory oracle (calls ++ [c])
  else selectResponsesDecide ctrl chatHistory oracle calls

/-- `WritingAssistantController.select_responses` (identically
`WritingAssistantFilter._execute` over the shared `AppState`): group the
current-iteration results, merge the outline candidates
(`if len(outlines) > 0`), merge the article candidates, then take the
keep-editing decision. -/
def selectResponses (ctrl : Controller) (chatHistory : List ChatEntry)
    (evalResults : List ScoredResult) (oracle : Oracle) : AggOutcome :=
  let outlines := outlineCandidates ctrl evalResults
  let articles := articleCandidates ctrl evalResults
  if outlines.length > 0 then
    let c := outlineMergeCall ctrl chatHistory outlines
    match oracle c with
    | none => ⟨ctrl, [c], none⟩
    | some response =>
      selectResponsesArticle { ctrl with outline := response } chatHistory articles oracle [c]
  else selectResponsesArticle ctrl chatHistory articles oracle []

/-! ### A small concrete scenario used by witnesses -/

/-- A concrete controller state in round 2. -/
def ctrlEx : Controller :=
  { responseThreshold := 0, topK := 5, article := "Art", outline := "Out", iteration := 2 }

/-- A one-entry chat history. -/
def chEx : List ChatEntry := [ChatEntry.mk "USER" "hello"]

/-- Two current-round worker results: one outline candidate and one
article candidate. -/
def rsEx : List ScoredResult :=
  [ScoredResult.mk 1 (EvalMessage.mk "OutlineWriterSkill" 2 "" "# A\n# B"),
   ScoredResult.mk 1 (EvalMessage.mk "SectionWriterSkill" 2 "Body text" "")]

/-- A worker-result list holding only an outline candidate of round 2. -/
def rsOnlyOutline : List ScoredResult :=
  [ScoredResult.mk 1 (EvalMessage.mk "OutlineWriterSkill" 2 "" "# A")]

/-- A worker-result list holding only an article candidate of round 2. -/
def rsOnlyArticle : List ScoredResult :=
  [ScoredResult.mk 1 (EvalMessage.mk "SectionWriterSkill" 2 "Body" "")]

/-- A two-chain registry for planner scenarios. -/
def chainsEx : List Chain :=
  [Chain.mk "Outline Writer" "writes outlines", Chain.mk "Article Writer" "writes articles"]

/-- A two-line planning reply. -/
def responseEx : String := "Outline Writer;8;expand intro\nArticle Writer;3;fix typo"

/-- An oracle that always answers with the stop phrase. -/
def oracleStop : Oracle := fun _ => some "RETURN TO REQUESTING AGENT"

/-- An oracle that answers every request with `"MERGED"`. -/
def oracleMerge : Oracle := fun _ => some "MERGED"

/-- An oracle that raises on outline-merge requests and answers `"X"`
otherwise. -/
def oracleOutlineFails : Oracle :=
  fun c => if c.system == outlineAggSystemPrompt then none else some "X"

/-- An oracle that raises on article-merge requests and answers `"X"`
otherwise. -/
def oracleArticleFails : Oracle :=
  fun c => if c.system == articleAggSystemPrompt then none else some "X"

/-! ### Helper lemmas about the parsing model -/

lemma pySplitChar_ne_nil (sep : Char) (l : List Char) : pySplitChar sep l ≠ [] := by
  induction l with
  | nil => simp [pySplitChar]
  | cons c rest ih =>
    unfold pySplitChar
    split
    · simp
    · cases h : pySplitChar sep rest with
      | nil => exact absurd h ih
      | cons f fs => simp [h]

lemma pySplitChar_cons_sep (sep : Char) (l : List Char) :
    pySplitChar sep (sep :: l) = [] :: pySplitChar sep l := by
  simp [pySplitChar]

lemma pySplitChar_append (sep : Char) (l₁ l₂ f : List Char) (fs : List (List Char))
    (h : sep ∉ l₁) (hsplit : pySplitChar sep l₂ = f :: fs) :
    pySplitChar sep (l₁ ++ l₂) = (l₁ ++ f) :: fs := by
  induction l₁ with
  | nil => simpa using hsplit
  | cons c rest ih =>
    have hc : ¬ c = sep := by
      intro hcs
      exact h (by simp [hcs])
    have h' : sep ∉ rest := by
      intro hm
      exact h (by simp [hm])
    have hrec := ih h'
    rw [List.cons_append]
    unfold pySplitChar
    rw [if_neg hc, hrec]
    rfl

lemma pySplit_concat3 (name s i : String) (hn : ';' ∉ name.data) (hs : ';' ∉ s.data) :
    pySplit (name ++ ";" ++ s ++ ";" ++ i) ';' =
      name :: s :: (pySplitChar ';' i.data).map String.mk := by
  obtain ⟨f, fs, hsplit⟩ : ∃ f fs, pySplitChar ';' i.data = f :: fs := by
    cases h : pySplitChar ';' i.data with
    | nil => exact absurd h (pySplitChar_ne_nil ';' i.data)
    | cons f fs => exact ⟨f, fs, rfl⟩
  have hdata : (name ++ ";" ++ s ++ ";" ++ i).data =
      name.data ++ (';' :: (s.data ++ (';' :: i.data))) := by
    simp [String.data_append]
  have hinner : pySplitChar ';' (s.data ++ (';' :: i.data)) = s.data :: f :: fs := by
    have h2 : pySplitChar ';' (';' :: i.data) = [] :: f :: fs := by
      rw [pySplitChar_cons_sep, hsplit]
    have := pySplitChar_append ';' s.data (';' :: i.data) [] (f :: fs) hs h2
    simpa using this
  have houter : pySplitChar ';' (name.data ++ (';' :: (s.data ++ (';' :: i.data)))) =
      name.data :: s.data :: f :: fs := by
    have h2 : pySplitChar ';' (';' :: (s.data ++ (';' :: i.data))) =
        [] :: s.data :: f :: fs := by
      rw [pySplitChar_cons_sep, hinner]
    have := pySplitChar_append ';' name.data (';' :: (s.data ++ (';' :: i.data)))
      [] (s.data :: f :: fs) hn h2
    simpa using this
  unfold pySplit
  rw [hdata, houter, hsplit]
  simp

lemma parseLine_concat (name s i : String) (chains : List Chain)
    (hn : ';' ∉ name.data) (hs : ';' ∉ s.data) :
    parseLine (name ++ ";" ++ s ++ ";" ++ i) chains =
      match chains.find? (fun c => c.name == name) with
      | some chain =>
        match pyInt s with
        | some v => some (chain, v, (pySplit i ';').headI)
        | none => none
      | none => none := by
  obtain ⟨f, fs, hsplit⟩ : ∃ f fs, pySplitChar ';' i.data = f :: fs := by
    cases h : pySplitChar ';' i.data with
    | nil => exact absurd h (pySplitChar_ne_nil ';' i.data)
    | cons f fs => exact ⟨f, fs, rfl⟩
  have hhead : (pySplit i ';').headI = String.mk f := by
    unfold pySplit
    rw [hsplit]
    rfl
  unfold parseLine
  rw [pySplit_concat3 name s i hn hs, hsplit, hhead]
  rfl

lemma find?_first {α : Type} (p : α → Bool) (pre post : List α) (c : α)
    (hpre : ∀ x ∈ pre, ¬ p x = true) (hc : p c = true) :
    (pre ++ c :: post).find? p = some c := by
  rw [List.find?_append]
  have h1 : pre.find? p = none := List.find?_eq_none.mpr hpre
  rw [h1]
  simp [List.find?_cons, hc]

lemma pyStrip_cons_space (c : Char) (l : List Char) (h : isPySpace c = true) :
    pyStrip (c :: l) = pyStrip l := by
  unfold pyStrip
  rw [List.dropWhile_cons_of_pos h]

lemma pyStrip_append_space (l : List Char) (c : Char) (h : isPySpace c = true) :
    pyStrip (l ++ [c]) = pyStrip l := by
  unfold pyStrip
  rw [List.dropWhile_append]
  by_cases he : (List.dropWhile isPySpace l).isEmpty
  · rw [if_pos he]
    rw [List.isEmpty_iff.mp he]
    simp [List.dropWhile, h]
  · rw [if_neg he]
    rw [List.reverse_append]
    rw [List.reverse_singleton, List.singleton_append, List.dropWhile_cons_of_pos h]

lemma pyInt_cons_space (c : Char) (s : String) (h : isPySpace c = true) :
    pyInt (String.mk (c :: s.data)) = pyInt s := by
  unfold pyInt
  show pyIntOfChars (pyStrip (c :: s.data)) = pyIntOfChars (pyStrip s.data)
  rw [pyStrip_cons_space c s.data h]

lemma pyInt_append_space (s : String) (c : Char) (h : isPySpace c = true) :
    pyInt (String.mk (s.data ++ [c])) = pyInt s := by
  unfold pyInt
  show pyIntOfChars (pyStrip (s.data ++ [c])) = pyIntOfChars (pyStrip s.data)
  rw [pyStrip_append_space s.data c h]

/-! ### Helper lemmas about the stable descending sort -/

lemma insertDesc_perm {α : Type} (key : α → ℚ) (a : α) (l : List α) :
    (insertDesc key a l).Perm (a :: l) := by
  induction l with
  | nil => exact List.Perm.refl _
  | cons b l ih =>
    unfold insertDesc
    split
    · exact List.Perm.refl _
    · exact (ih.cons b).trans (List.Perm.swap a b l)

lemma pySortDesc_perm {α : Type} (l : List α) (key : α → ℚ) :
    (pySortDesc l key).Perm l := by
  induction l with
  | nil => exact List.Perm.refl _
  | cons x rest ih =>
    exact (insertDesc_perm key x (pySortDesc rest key)).trans (ih.cons x)

lemma mem_pySortDesc {α : Type} {a : α} {l : List α} {key : α → ℚ} :
    a ∈ pySortDesc l key ↔ a ∈ l :=
  (pySortDesc_perm l key).mem_iff

lemma insertDesc_pairwise {α : Type} (key : α → ℚ) (a : α) (l : List α)
    (h : l.Pairwise (fun x y => key y ≤ key x)) :
    (insertDesc key a l).Pairwise (fun x y => key y ≤ key x) := by
  induction l with
  | nil => simp [insertDesc]
  | cons b l ih =>
    rcases List.pairwise_cons.mp h with ⟨hb, hl⟩
    unfold insertDesc
    split
    · rename_i hba
      refine List.pairwise_cons.mpr ⟨?_, h⟩
      intro y hy
      rcases List.mem_cons.mp hy with rfl | hyl
      · exact hba
      · exact le_trans (hb y hyl) hba
    · rename_i hba
      refine List.pairwise_cons.mpr ⟨?_, ih hl⟩
      intro y hy
      have hy' := (insertDesc_perm key a l).mem_iff.mp hy
      rcases List.mem_cons.mp hy' with rfl | hyl
      · exact (not_le.mp hba).le
      · exact hb y hyl

lemma pySortDesc_pairwise {α : Type} (l : List α) (key : α → ℚ) :
    (pySortDesc l key).Pairwise (fun a b => key b ≤ key a) := by
  induction l with
  | nil => simp [pySortDesc]
  | cons x rest ih => exact insertDesc_pairwise key x (pySortDesc rest key) ih

lemma insertDesc_filter_of_neg {α : Type} (key : α → ℚ) (a : α) (l : List α)
    (p : α → Bool) (ha : p a = false) :
    (insertDesc key a l).filter p = l.filter p := by
  induction l with
  | nil => simp [insertDesc, ha]
  | cons b l ih =>
    unfold insertDesc
    split
    · simp [List.filter_cons, ha]
    · rw [List.filter_cons, List.filter_cons]
      cases hb : p b <;> simp [hb, ih]

lemma insertDesc_filter_of_pos {α : Type} (key : α → ℚ) (a : α) (l : List α)
    (p : α → Bool) (k : ℚ) (hk : ∀ x, p x = true → key x = k) (ha : p a = true) :
    (insertDesc key a l).filter p = a :: l.filter p := by
  induction l with
  | nil => simp [insertDesc, ha]
  | cons b l ih =>
    unfold insertDesc
    split
    · simp [List.filter_cons, ha]
    · rename_i hba
      have hbf : p b = false := by
        cases hb : p b with
        | false => rfl
        | true => exact absurd (by rw [hk b hb, hk a ha]) hba
      rw [List.filter_cons, List.filter_cons]
      simp [hbf, ih]

/-- Stability of the Python sort, in the form the claims use: filtering by
a predicate that pins the key to one value commutes with the sort, i.e.
elements with equal keys come out in their original relative order. -/
lemma pySortDesc_filter_stable {α : Type} (l : List α) (key : α → ℚ) (p : α → Bool)
    (k : ℚ) (hp : ∀ a, p a = true → key a = k) :
    (pySortDesc l key).filter p = l.filter p := by
  induction l with
  | nil => rfl
  | cons x rest ih =>
    show (insertDesc key x (pySortDesc rest key)).filter p = (x :: rest).filter p
    cases hx : p x with
    | false =>
      rw [insertDesc_filter_of_neg key x _ p hx, ih, List.filter_cons]
      simp [hx]
    | true =>
      rw [insertDesc_filter_of_pos key x _ p k hp hx, ih, List.filter_cons]
      simp [hx]

/-! ### Claim theorems about the decision-line parser -/

/-- C1 (counterexample): the claim says the instruction field is the
entire remainder of the line after the second `;`, an instruction holding
`;` being preserved in full.  `parse_line` instead splits on every `;` and
keeps only the third field, so `"Outline Writer;8;expand intro; then polish"`
parses to the truncated instruction `"expand intro"`, not
`"expand intro; then polish"`. -/
theorem parse_line_semicolon_instruction_cex :
    parseLine "Outline Writer;8;expand intro; then polish" [Chain.mk "Outline Writer" "d"] =
      some (Chain.mk "Outline Writer" "d", 8, "expand intro") ∧
    parseLine "Outline Writer;8;expand intro; then polish" [Chain.mk "Outline Writer" "d"] ≠
      some (Chain.mk "Outline Writer" "d", 8, "expand intro; then polish") := by
  constructor
  · decide
  · decide

/-- C1 (amended): for every line `name;score;instr` whose `name` and
`score` fields hold no `;`, with `name` the name of a registered chain and
`score` accepted by `int`, `parse_line` returns the first chain of that
name, the integer value of the score, and the part of `instr` before its
first `;` (the third `;`-separated field of the line; text after a further
`;` is dropped). -/
theorem parse_line_wellformed_amended (name scoreStr instr : String)
    (chains : List Chain) (chain : Chain) (v : Int)
    (hn : ';' ∉ name.data) (hs : ';' ∉ scoreStr.data)
    (hfind : chains.find? (fun c => c.name == name) = some chain)
    (hint : pyInt scoreStr = some v) :
    parseLine (name ++ ";" ++ scoreStr ++ ";" ++ instr) chains =
      some (chain, v, (pySplit instr ';').headI) := by
  rw [parseLine_concat name scoreStr instr chains hn hs, hfind, hint]

/-- Witness for the amended C1 theorem at a concrete input. -/
theorem parse_line_wellformed_amended_witness :
    (';' ∉ "w".data) ∧ (';' ∉ " 8".data) ∧
    ([Chain.mk "w" "d"].find? (fun c => c.name == "w") = some (Chain.mk "w" "d")) ∧
    pyInt " 8" = some 8 ∧
    parseLine ("w" ++ ";" ++ " 8" ++ ";" ++ "go now") [Chain.mk "w" "d"] =
      some (Chain.mk "w" "d", 8, (pySplit "go now" ';').headI) :=
  ⟨by decide, by decide, by decide, by decide,
    parse_line_wellformed_amended "w" " 8" "go now" [Chain.mk "w" "d"]
      (Chain.mk "w" "d") 8 (by decide) (by decide) (by decide) (by decide)⟩

/-- C3: `parse_line` is total (modelled by its `Option` result) and yields
`none` on every malformed line — fewer than three `;`-separated fields, a
score rejected by `int`, or a target name matching no registered chain —
and in the planner's batch the outcome at each position depends only on
the line at that position. -/
theorem parse_line_malformed_total (line : String) (chains : List Chain) :
    ((pySplit line ';').length < 3 → parseLine line chains = none) ∧
    (∀ n s i, (pySplit line ';').take 3 = [n, s, i] → pyInt s = none →
      parseLine line chains = none) ∧
    (∀ n s i, (pySplit line ';').take 3 = [n, s, i] → (∀ c ∈ chains, c.name ≠ n) →
      parseLine line chains = none) ∧
    (∀ (lines lines' : List String) (j : Nat), lines[j]? = lines'[j]? →
      (lines.map (fun l => parseLine l chains))[j]? =
        (lines'.map (fun l => parseLine l chains))[j]?) := by
  refine ⟨?_, ?_, ?_, ?_⟩
  · intro h
    unfold parseLine
    have hle : (pySplit line ';').length ≤ 3 := Nat.le_of_lt h
    rw [List.take_of_length_le hle]
    rcases hl : pySplit line ';' with _ | ⟨a, _ | ⟨b, _ | ⟨c, tl⟩⟩⟩
    · rfl
    · rfl
    · rfl
    · rw [hl] at h
      simp only [List.length_cons] at h
      omega
  · intro n s i ht hint
    unfold parseLine
    rw [ht]
    show (match chains.find? (fun item => item.name == n) with
      | some chain =>
        match pyInt s with
        | some v => some (chain, v, i)
        | none => none
      | none => none) = none
    cases hfind : chains.find? (fun item => item.name == n) with
    | none => rfl
    | some chain =>
      show (match pyInt s with
        | some v => some (chain, v, i)
        | none => none) = none
      rw [hint]
  · intro n s i ht hmiss
    unfold parseLine
    rw [ht]
    show (match chains.find? (fun item => item.name == n) with
      | some chain =>
        match pyInt s with
        | some v => some (chain, v, i)
        | none => none
      | none => none) = none
    have hfind : chains.find? (fun item => item.name == n) = none :=
      List.find?_eq_none.mpr (fun c hc => by simpa using hmiss c hc)
    rw [hfind]
  · intro lines lines' j h
    rw [List.getElem?_map, List.getElem?_map, h]

/-- Witness for the C3 theorem at a concrete input. -/
theorem parse_line_malformed_total_witness :
    ((pySplit "a;b" ';').length < 3 ∧ parseLine "a;b" [] = none) ∧
    ((pySplit "w;x;i" ';').take 3 = ["w", "x", "i"] ∧ pyInt "x" = none ∧
      parseLine "w;x;i" [Chain.mk "w" "d"] = none) ∧
    ((pySplit "v;5;i" ';').take 3 = ["v", "5", "i"] ∧
      parseLine "v;5;i" [Chain.mk "w" "d"] = none) :=
  ⟨⟨by decide, (parse_line_malformed_total "a;b" []).1 (by decide)⟩,
   ⟨by decide, by decide,
     (parse_line_malformed_total "w;x;i" [Chain.mk "w" "d"]).2.1 "w" "x" "i"
       (by decide) (by decide)⟩,
   ⟨by decide,
     (parse_line_malformed_total "v;5;i" [Chain.mk "w" "d"]).2.2.1 "v" "5" "i"
       (by decide) (by decide)⟩⟩

/-- C10: the target field is matched by exact string equality — a name
field with a leading or trailing space around a registered name is
discarded when no chain carries the padded name — the first chain of a
duplicated name in registry order is selected, and the score field
tolerates surrounding whitespace because `int` strips it. -/
theorem parse_line_exact_match_first_chain :
    (∀ (chains : List Chain) (name scoreStr instr : String),
      ';' ∉ name.data → ';' ∉ scoreStr.data →
      (∃ c ∈ chains, c.name = name) →
      (∀ c ∈ chains, c.name ≠ " " ++ name) →
      parseLine ((" " ++ name) ++ ";" ++ scoreStr ++ ";" ++ instr) chains = none) ∧
    (∀ (chains : List Chain) (name scoreStr instr : String),
      ';' ∉ name.data → ';' ∉ scoreStr.data →
      (∃ c ∈ chains, c.name = name) →
      (∀ c ∈ chains, c.name ≠ name ++ " ") →
      parseLine ((name ++ " ") ++ ";" ++ scoreStr ++ ";" ++ instr) chains = none) ∧
    (∀ (pre post : List Chain) (c : Chain) (scoreStr instr : String) (v : Int),
      ';' ∉ c.name.data → ';' ∉ scoreStr.data →
      (∀ c' ∈ pre, c'.name ≠ c.name) →
      pyInt scoreStr = some v →
      parseLine (c.name ++ ";" ++ scoreStr ++ ";" ++ instr) (pre ++ c :: post) =
        some (c, v, (pySplit instr ';').headI)) ∧
    (∀ (ws : Char) (s : String), isPySpace ws = true →
      pyInt (String.mk (ws :: s.data)) = pyInt s ∧
      pyInt (String.mk (s.data ++ [ws])) = pyInt s) := by
  refine ⟨?_, ?_, ?_, ?_⟩
  · intro chains name scoreStr instr hn hs _ hpad
    have hn' : ';' ∉ (" " ++ name).data := by
      rw [String.data_append]
      intro hm
      rcases List.mem_append.mp hm with h1 | h2
      · simp at h1
      · exact hn h2
    rw [parseLine_concat (" " ++ name) scoreStr instr chains hn' hs]
    have hfind : chains.find? (fun c => c.name == (" " ++ name)) = none :=
      List.find?_eq_none.mpr (fun c hc => by simpa using hpad c hc)
    rw [hfind]
  · intro chains name scoreStr instr hn hs _ hpad
    have hn' : ';' ∉ (name ++ " ").data := by
      rw [String.data_append]
      intro hm
      rcases List.mem_append.mp hm with h1 | h2
      · exact hn h1
      · simp at h2
    rw [parseLine_concat (name ++ " ") scoreStr instr chains hn' hs]
    have hfind : chains.find? (fun c => c.name == (name ++ " ")) = none :=
      List.find?_eq_none.mpr (fun c hc => by simpa using hpad c hc)
    rw [hfind]
  · intro pre post c scoreStr instr v hn hs hpre hint
    rw [parseLine_concat c.name scoreStr instr (pre ++ c :: post) hn hs]
    have hfind : (pre ++ c :: post).find? (fun x => x.name == c.name) = some c :=
      find?_first (fun x => x.name == c.name) pre post c
        (fun x hx => by simpa using hpre x hx) (by simp)
    rw [hfind, hint]
  · intro ws s h
    exact ⟨pyInt_cons_space ws s h, pyInt_append_space s ws h⟩

/-- Witness for the C10 theorem at concrete inputs. -/
theorem parse_line_exact_match_first_chain_witness :
    parseLine ((" " ++ "w") ++ ";" ++ "5" ++ ";" ++ "i") [Chain.mk "w" "d"] = none ∧
    parseLine (("w" ++ " ") ++ ";" ++ "5" ++ ";" ++ "i") [Chain.mk "w" "d"] = none ∧
    parseLine ("w" ++ ";" ++ "5" ++ ";" ++ "i")
        ([Chain.mk "a" "x"] ++ Chain.mk "w" "d" :: [Chain.mk "w" "e"]) =
      some (Chain.mk "w" "d", 5, (pySplit "i" ';').headI) ∧
    pyInt (String.mk (' ' :: "7".data)) = pyInt "7" :=
  ⟨parse_line_exact_match_first_chain.1 [Chain.mk "w" "d"] "w" "5" "i"
      (by decide) (by decide) (by decide) (by decide),
   parse_line_exact_match_first_chain.2.1 [Chain.mk "w" "d"] "w" "5" "i"
      (by decide) (by decide) (by decide) (by decide),
   parse_line_exact_match_first_chain.2.2.1 [Chain.mk "a" "x"] [Chain.mk "w" "e"]
      (Chain.mk "w" "d") "5" "i" 5 (by decide) (by decide) (by decide) (by decide),
   (parse_line_exact_match_first_chain.2.2.2 ' ' "7" (by decide)).1⟩

/-! ### Claim theorems about the planner -/

/-- C7: every `get_plan` call increments `_iteration` by exactly 1,
unconditionally (also when the returned plan is empty), and changes no
other controller state field. -/
theorem get_plan_increments_iteration (ctrl : Controller) (chains : List Chain)
    (response : String) :
    (getPlan ctrl chains response).1.iteration = ctrl.iteration + 1 ∧
    (getPlan ctrl chains response).1.outline = ctrl.outline ∧
    (getPlan ctrl chains response).1.article = ctrl.article ∧
    (getPlan ctrl chains response).1.responseThreshold = ctrl.responseThreshold ∧
    (getPlan ctrl chains response).1.topK = ctrl.topK := by
  simp only [getPlan]
  split
  · exact ⟨rfl, rfl, rfl, rfl, rfl⟩
  · exact ⟨rfl, rfl, rfl, rfl, rfl⟩

/-- C2: the plan returned by `get_plan` is the image of the first `top_k`
sorted threshold-passing triples; it has length at most `top_k`, every
retained triple's priority is strictly above the threshold, the triples
are in descending priority order, and triples of equal priority keep the
relative order of the reply lines they were parsed from. -/
theorem get_plan_bounded_sorted (ctrl : Controller) (chains : List Chain)
    (response : String) :
    (getPlan ctrl chains response).2 =
      ((planSorted ctrl chains response).take ctrl.topK).map
        (mkExecUnit { ctrl with iteration := ctrl.iteration + 1 }) ∧
    (getPlan ctrl chains response).2.length ≤ ctrl.topK ∧
    (∀ t ∈ (planSorted ctrl chains response).take ctrl.topK,
      ctrl.responseThreshold < (t.2.1 : ℚ)) ∧
    ((planSorted ctrl chains response).take ctrl.topK).Pairwise
      (fun a b => b.2.1 ≤ a.2.1) ∧
    (∀ s : Int,
      (((planSorted ctrl chains response).take ctrl.topK).filter
        (fun t => t.2.1 == s)).Sublist
      ((planFiltered ctrl chains response).filter (fun t => t.2.1 == s))) := by
  have h1 : (getPlan ctrl chains response).2 =
      ((planSorted ctrl chains response).take ctrl.topK).map
        (mkExecUnit { ctrl with iteration := ctrl.iteration + 1 }) := by
    simp only [getPlan]
    split
    · rename_i hlen
      have hnil : planFiltered ctrl chains response = [] := List.length_eq_zero.mp hlen
      have hsortnil : planSorted ctrl chains response = [] := by
        unfold planSorted
        rw [hnil]
        rfl
      rw [hsortnil]
      simp
    · rw [List.map_take]
  refine ⟨h1, ?_, ?_, ?_, ?_⟩
  · rw [h1, List.length_map]
    exact List.length_take_le ctrl.topK _
  · intro t ht
    have hmem : t ∈ planFiltered ctrl chains response := by
      have := List.mem_of_mem_take ht
      unfold planSorted at this
      exact mem_pySortDesc.mp this
    have := List.of_mem_filter hmem
    exact of_decide_eq_true this
  · have hsorted := pySortDesc_pairwise (planFiltered ctrl chains response)
      (fun item => (item.2.1 : ℚ))
    have htake : ((planSorted ctrl chains response).take ctrl.topK).Pairwise
        (fun a b => ((b.2.1 : ℚ) ≤ (a.2.1 : ℚ))) :=
      List.Pairwise.sublist (List.take_sublist ctrl.topK _) hsorted
    exact htake.imp (fun h => Int.cast_le.mp h)
  · intro s
    have hstable : (planSorted ctrl chains response).filter (fun t => t.2.1 == s) =
        (planFiltered ctrl chains response).filter (fun t => t.2.1 == s) := by
      unfold planSorted
      apply pySortDesc_filter_stable _ _ _ ((s : Int) : ℚ)
      intro a ha
      have : a.2.1 = s := by simpa using ha
      rw [this]
    rw [← hstable]
    exact List.Sublist.filter _ (List.take_sublist ctrl.topK _)

/-- Witness for the C2 theorem at a concrete input. -/
theorem get_plan_bounded_sorted_witness :
    ((Chain.mk "Outline Writer" "writes outlines", (8 : Int), "expand intro") ∈
      (planSorted ctrlEx chainsEx responseEx).take ctrlEx.topK) ∧
    ctrlEx.responseThreshold <
      (((Chain.mk "Outline Writer" "writes outlines", (8 : Int), "expand intro") :
        Chain × Int × String).2.1 : ℚ) :=
  ⟨by decide,
    (get_plan_bounded_sorted ctrlEx chainsEx responseEx).2.2.1
      (Chain.mk "Outline Writer" "writes outlines", (8 : Int), "expand intro")
      (by decide)⟩

/-! ### Helper lemmas about the aggregation step -/

lemma outlineAgg_ne_articleAgg : outlineAggSystemPrompt ≠ articleAggSystemPrompt := by
  decide

lemma editing_ne_articleAgg : editingDecisionSystemPrompt ≠ articleAggSystemPrompt := by
  decide

lemma articleAgg_ne_outlineAgg : articleAggSystemPrompt ≠ outlineAggSystemPrompt := by
  decide

lemma editing_ne_outlineAgg : editingDecisionSystemPrompt ≠ outlineAggSystemPrompt := by
  decide

lemma selectResponsesDecide_ctrl (ctrl : Controller) (ch : List ChatEntry)
    (oracle : Oracle) (calls : List OracleCall) :
    (selectResponsesDecide ctrl ch oracle calls).ctrl = ctrl := by
  simp only [selectResponsesDecide]
  split
  · rfl
  · split
    · rfl
    · rfl

lemma selectResponsesDecide_calls (ctrl : Controller) (ch : List ChatEntry)
    (oracle : Oracle) (calls : List OracleCall) :
    (selectResponsesDecide ctrl ch oracle calls).calls =
      calls ++ [editingDecisionCall ctrl ch] := by
  simp only [selectResponsesDecide]
  split
  · rfl
  · split
    · rfl
    · rfl

lemma selectResponsesArticle_nil (ctrl : Controller) (ch : List ChatEntry)
    (oracle : Oracle) (calls : List OracleCall) :
    selectResponsesArticle ctrl ch [] oracle calls =
      selectResponsesDecide ctrl ch oracle calls := by
  simp [selectResponsesArticle]

lemma selectResponsesArticle_ctrl_outline (ctrl : Controller) (ch : List ChatEntry)
    (articles : List String) (oracle : Oracle) (calls : List OracleCall) :
    (selectResponsesArticle ctrl ch articles oracle calls).ctrl.outline = ctrl.outline := by
  simp only [selectResponsesArticle]
  split
  · split
    · rfl
    · rw [selectResponsesDecide_ctrl]
  · rw [selectResponsesDecide_ctrl]

lemma selectResponsesArticle_calls_append (ctrl : Controller) (ch : List ChatEntry)
    (articles : List String) (oracle : Oracle) (calls : List OracleCall) :
    ∃ extra, (selectResponsesArticle ctrl ch articles oracle calls).calls = calls ++ extra ∧
      ∀ c ∈ extra, c.system = articleAggSystemPrompt ∨
        c.system = editingDecisionSystemPrompt := by
  simp only [selectResponsesArticle]
  split
  · split
    · refine ⟨[articleMergeCall ctrl ch articles], rfl, ?_⟩
      intro c hc
      rw [List.mem_singleton] at hc
      subst hc
      exact Or.inl rfl
    · rename_i r heq
      rw [selectResponsesDecide_calls]
      refine ⟨[articleMergeCall ctrl ch articles,
        editingDecisionCall { ctrl with article := r } ch], by simp, ?_⟩
      intro c hc
      rcases List.mem_cons.mp hc with h1 | h2
      · subst h1
        exact Or.inl rfl
      · rw [List.mem_singleton] at h2
        subst h2
        exact Or.inr rfl
  · rw [selectResponsesDecide_calls]
    refine ⟨[editingDecisionCall ctrl ch], rfl, ?_⟩
    intro c hc
    rw [List.mem_singleton] at hc
    subst hc
    exact Or.inr rfl

lemma listStartsWith_iff (needle hay : List Char) :
    listStartsWith hay needle = true ↔ needle <+: hay := by
  induction needle generalizing hay with
  | nil => simp [listStartsWith]
  | cons b bs ih =>
    cases hay with
    | nil => simp [listStartsWith]
    | cons a as =>
      show (a == b && listStartsWith as bs) = true ↔ b :: bs <+: a :: as
      rw [Bool.and_eq_true, beq_iff_eq, List.cons_prefix_cons, ih]
      exact and_congr_left (fun _ => eq_comm)

lemma listContainsSub_iff (needle hay : List Char) :
    listContainsSub needle hay = true ↔ needle <:+: hay := by
  induction hay with
  | nil => simp [listContainsSub, List.infix_nil, List.isEmpty_iff]
  | cons c rest ih =>
    simp [listContainsSub, List.infix_cons_iff, listStartsWith_iff, ih]

lemma containsSubstr_iff (hay needle : String) :
    containsSubstr hay needle = true ↔ needle.data <:+: hay.data :=
  listContainsSub_iff needle.data hay.data

lemma articleAggUserPrompt_outline_infix (ch o a ps : String) :
    o.data <:+: (articleAggUserPrompt ch o a ps).data := by
  refine ⟨(articleAggSeg1 ++ ch ++ articleAggSeg2).data,
    (articleAggSeg3 ++ a ++ articleAggSeg4 ++ ps ++ articleAggSeg5).data, ?_⟩
  simp [articleAggUserPrompt, String.data_append]

/-- Exhaustive case analysis of the outline-aggregation stage of
`select_responses`. -/
lemma selectResponses_cases (ctrl : Controller) (ch : List ChatEntry)
    (rs : List ScoredResult) (oracle : Oracle) :
    (outlineCandidates ctrl rs = [] ∧
      selectResponses ctrl ch rs oracle =
        selectResponsesArticle ctrl ch (articleCandidates ctrl rs) oracle []) ∨
    (outlineCandidates ctrl rs ≠ [] ∧
      oracle (outlineMergeCall ctrl ch (outlineCandidates ctrl rs)) = none ∧
      selectResponses ctrl ch rs oracle =
        ⟨ctrl, [outlineMergeCall ctrl ch (outlineCandidates ctrl rs)], none⟩) ∨
    (∃ r, outlineCandidates ctrl rs ≠ [] ∧
      oracle (outlineMergeCall ctrl ch (outlineCandidates ctrl rs)) = some r ∧
      selectResponses ctrl ch rs oracle =
        selectResponsesArticle { ctrl with outline := r } ch
          (articleCandidates ctrl rs) oracle
          [outlineMergeCall ctrl ch (outlineCandidates ctrl rs)]) := by
  by_cases h : outlineCandidates ctrl rs = []
  · refine Or.inl ⟨h, ?_⟩
    simp [selectResponses, h]
  · cases horacle : oracle (outlineMergeCall ctrl ch (outlineCandidates ctrl rs)) with
    | none =>
      refine Or.inr (Or.inl ⟨h, rfl, ?_⟩)
      simp only [selectResponses]
      rw [if_pos (List.length_pos.mpr h), horacle]
    | some r =>
      refine Or.inr (Or.inr ⟨r, h, rfl, ?_⟩)
      simp only [selectResponses]
      rw [if_pos (List.length_pos.mpr h), horacle]

/-- In the article-aggregation stage, the article field is either left
untouched or set to the full response of the article-merge request that
appears in the issued calls. -/
lemma selectResponsesArticle_article_atomic (ctrl : Controller) (ch : List ChatEntry)
    (articles : List String) (oracle : Oracle) (calls : List OracleCall) :
    (selectResponsesArticle ctrl ch articles oracle calls).ctrl.article = ctrl.article ∨
    ∃ c ∈ (selectResponsesArticle ctrl ch articles oracle calls).calls,
      c.system = articleAggSystemPrompt ∧
      oracle c = some (selectResponsesArticle ctrl ch articles oracle calls).ctrl.article := by
  by_cases h : articles.length > 0
  · cases horacle : oracle (articleMergeCall ctrl ch articles) with
    | none =>
      left
      simp only [selectResponsesArticle]
      rw [if_pos h, horacle]
    | some r =>
      right
      have hres : selectResponsesArticle ctrl ch articles oracle calls =
          selectResponsesDecide { ctrl with article := r } ch oracle
            (calls ++ [articleMergeCall ctrl ch articles]) := by
        simp only [selectResponsesArticle]
        rw [if_pos h, horacle]
      refine ⟨articleMergeCall ctrl ch articles, ?_, rfl, ?_⟩
      · rw [hres, selectResponsesDecide_calls]
        simp
      · rw [hres, selectResponsesDecide_ctrl]
        exact horacle
  · left
    have hnil : articles = [] := by
      rcases articles with _ | ⟨a, tl⟩
      · rfl
      · exact absurd (by simp) h
    subst hnil
    rw [selectResponsesArticle_nil, selectResponsesDecide_ctrl]

/-- The article-aggregation stage leaves the article field unchanged when
its candidate group is empty, and issues only the keep-editing request. -/
lemma selectResponsesArticle_nil_frame (ctrl : Controller) (ch : List ChatEntry)
    (oracle : Oracle) (calls : List OracleCall) :
    (selectResponsesArticle ctrl ch [] oracle calls).ctrl.article = ctrl.article ∧
    (selectResponsesArticle ctrl ch [] oracle calls).calls =
      calls ++ [editingDecisionCall ctrl ch] := by
  rw [selectResponsesArticle_nil]
  exact ⟨by rw [selectResponsesDecide_ctrl], selectResponsesDecide_calls ctrl ch oracle calls⟩

/-! ### Claim theorems about the aggregation and termination step -/

/-- C4: the aggregation step only ever merges current-iteration results —
every message retained for aggregation carries the controller's current
iteration number, and every outline / article candidate handed to a merge
prompt or state update originates from a result whose embedded iteration
equals the current one; results of any other iteration are discarded. -/
theorem aggregation_current_iteration_only (ctrl : Controller) (rs : List ScoredResult) :
    (∀ m ∈ currentIterationResults ctrl rs, m.iteration = ctrl.iteration) ∧
    (∀ o ∈ outlineCandidates ctrl rs, ∃ sr ∈ rs,
      sr.message.iteration = ctrl.iteration ∧
      sr.message.source = "OutlineWriterSkill" ∧ o = sr.message.outline) ∧
    (∀ a ∈ articleCandidates ctrl rs, ∃ sr ∈ rs,
      sr.message.iteration = ctrl.iteration ∧
      sr.message.source = "SectionWriterSkill" ∧ a = sr.message.article) := by
  have hcur : ∀ m ∈ currentIterationResults ctrl rs,
      m.iteration = ctrl.iteration ∧ ∃ sr ∈ rs, m = sr.message := by
    intro m hm
    unfold currentIterationResults at hm
    have hit := List.of_mem_filter hm
    have hm2 := List.mem_of_mem_filter hm
    rcases List.mem_map.mp hm2 with ⟨sr, hsr, rfl⟩
    exact ⟨by simpa using hit, sr, mem_pySortDesc.mp hsr, rfl⟩
  refine ⟨fun m hm => (hcur m hm).1, ?_, ?_⟩
  · intro o ho
    unfold outlineCandidates at ho
    rcases List.mem_map.mp ho with ⟨m, hm, rfl⟩
    have hsrc := List.of_mem_filter hm
    have hm2 := List.mem_of_mem_filter hm
    rcases hcur m hm2 with ⟨hit, sr, hsr, rfl⟩
    exact ⟨sr, hsr, hit, by simpa using hsrc, rfl⟩
  · intro a ha
    unfold articleCandidates at ha
    rcases List.mem_map.mp ha with ⟨m, hm, rfl⟩
    have hsrc := List.of_mem_filter hm
    have hm2 := List.mem_of_mem_filter hm
    rcases hcur m hm2 with ⟨hit, sr, hsr, rfl⟩
    exact ⟨sr, hsr, hit, by simpa using hsrc, rfl⟩

/-- Witness for the C4 theorem at a concrete input. -/
theorem aggregation_current_iteration_only_witness :
    ("# A\n# B" ∈ outlineCandidates ctrlEx rsEx) ∧
    ∃ sr ∈ rsEx, sr.message.iteration = ctrlEx.iteration ∧
      sr.message.source = "OutlineWriterSkill" ∧ "# A\n# B" = sr.message.outline :=
  ⟨by decide,
    (aggregation_current_iteration_only ctrlEx rsEx).2.1 "# A\n# B" (by decide)⟩

/-- C6: the termination verdict continues (the step returns `some []`,
forcing another round) exactly when the oracle's reply contains the
literal substring `"KEEP EDITING"`; any reply without that marker —
including one with neither marker — stops, returning the current article
as a single message scored `1.0`. -/
theorem termination_verdict_keep_editing (ctrl : Controller) (ch : List ChatEntry)
    (oracle : Oracle) (calls : List OracleCall) (r : String)
    (h : oracle (editingDecisionCall ctrl ch) = some r) :
    ((selectResponsesDecide ctrl ch oracle calls).output = some [] ↔
      ("KEEP EDITING" : String).data <:+: r.data) ∧
    (¬ ("KEEP EDITING" : String).data <:+: r.data →
      (selectResponsesDecide ctrl ch oracle calls).output =
        some [ScoredMessage.mk ctrl.article 1]) := by
  simp only [selectResponsesDecide, h]
  by_cases hc : containsSubstr r "KEEP EDITING" = true
  · rw [if_pos hc]
    constructor
    · exact ⟨fun _ => (containsSubstr_iff r "KEEP EDITING").mp hc, fun _ => rfl⟩
    · intro hni
      exact absurd ((containsSubstr_iff r "KEEP EDITING").mp hc) hni
  · rw [if_neg hc]
    constructor
    · constructor
      · intro habs
        simp at habs
      · intro hinf
        exact absurd ((containsSubstr_iff r "KEEP EDITING").mpr hinf) hc
    · intro _
      rfl

/-- Witness for the C6 theorem at concrete inputs, on both sides of the
marker test. -/
theorem termination_verdict_keep_editing_witness :
    (oracleStop (editingDecisionCall ctrlEx chEx) = some "RETURN TO REQUESTING AGENT" ∧
      (selectResponsesDecide ctrlEx chEx oracleStop []).output =
        some [ScoredMessage.mk ctrlEx.article 1]) ∧
    ((fun _ => some "done, KEEP EDITING please" : Oracle)
        (editingDecisionCall ctrlEx chEx) = some "done, KEEP EDITING please" ∧
      (selectResponsesDecide ctrlEx chEx
        (fun _ => some "done, KEEP EDITING please") []).output = some []) :=
  ⟨⟨rfl, (termination_verdict_keep_editing ctrlEx chEx oracleStop []
      "RETURN TO REQUESTING AGENT" rfl).2 (by decide)⟩,
   ⟨rfl, (termination_verdict_keep_editing ctrlEx chEx
      (fun _ => some "done, KEEP EDITING please") []
      "done, KEEP EDITING please" rfl).1.mpr (by decide)⟩⟩

/-- C8: when both merges are triggered and the outline merge succeeds,
the outline-merge call strictly precedes the article-merge call, the
article-merge request is composed from the just-updated outline (the
outline oracle response `r`, not the pre-merge outline), and `r` occurs
verbatim inside the article-merge prompt. -/
theorem outline_merge_before_article_merge (ctrl : Controller) (ch : List ChatEntry)
    (rs : List ScoredResult) (oracle : Oracle) (r : String)
    (ho : outlineCandidates ctrl rs ≠ [])
    (ha : articleCandidates ctrl rs ≠ [])
    (hresp : oracle (outlineMergeCall ctrl ch (outlineCandidates ctrl rs)) = some r) :
    ∃ rest, (selectResponses ctrl ch rs oracle).calls =
        outlineMergeCall ctrl ch (outlineCandidates ctrl rs) ::
          articleMergeCall { ctrl with outline := r } ch (articleCandidates ctrl rs) ::
          rest ∧
      r.data <:+: (articleMergeCall { ctrl with outline := r } ch
        (articleCandidates ctrl rs)).user.data := by
  have hinfix : r.data <:+: (articleMergeCall { ctrl with outline := r } ch
      (articleCandidates ctrl rs)).user.data :=
    articleAggUserPrompt_outline_infix (pyStrList (conversationLines ch)) r
      ctrl.article (pyStrList (articleCandidates ctrl rs))
  simp only [selectResponses]
  rw [if_pos (List.length_pos.mpr ho), hresp]
  simp only [selectResponsesArticle]
  rw [if_pos (List.length_pos.mpr ha)]
  cases horacle : oracle (articleMergeCall { ctrl with outline := r } ch
      (articleCandidates ctrl rs)) with
  | none => exact ⟨[], rfl, hinfix⟩
  | some r2 =>
    refine ⟨[editingDecisionCall
      { ctrl with outline := r, article := r2 } ch], ?_, hinfix⟩
    rw [selectResponsesDecide_calls]
    rfl

/-- Witness for the C8 theorem at a concrete input. -/
theorem outline_merge_before_article_merge_witness :
    outlineCandidates ctrlEx rsEx ≠ [] ∧ articleCandidates ctrlEx rsEx ≠ [] ∧
    oracleMerge (outlineMergeCall ctrlEx chEx (outlineCandidates ctrlEx rsEx)) =
      some "MERGED" ∧
    ∃ rest, (selectResponses ctrlEx chEx rsEx oracleMerge).calls =
        outlineMergeCall ctrlEx chEx (outlineCandidates ctrlEx rsEx) ::
          articleMergeCall { ctrlEx with outline := "MERGED" } chEx
            (articleCandidates ctrlEx rsEx) :: rest ∧
      ("MERGED" : String).data <:+: (articleMergeCall { ctrlEx with outline := "MERGED" }
        chEx (articleCandidates ctrlEx rsEx)).user.data :=
  ⟨by decide, by decide, rfl,
    outline_merge_before_article_merge ctrlEx chEx rsEx oracleMerge "MERGED"
      (by decide) (by decide) rfl⟩

/-- C9: when the outline-candidate group of the current iteration is
empty the outline field is left unchanged and no outline-merge request is
issued; when the article-candidate group is empty the article field is
left unchanged and no article-merge request is issued. -/
theorem aggregation_empty_groups_frame (ctrl : Controller) (ch : List ChatEntry)
    (rs : List ScoredResult) (oracle : Oracle) :
    (outlineCandidates ctrl rs = [] →
      (selectResponses ctrl ch rs oracle).ctrl.outline = ctrl.outline ∧
      ∀ c ∈ (selectResponses ctrl ch rs oracle).calls,
        c.system ≠ outlineAggSystemPrompt) ∧
    (articleCandidates ctrl rs = [] →
      (selectResponses ctrl ch rs oracle).ctrl.article = ctrl.article ∧
      ∀ c ∈ (selectResponses ctrl ch rs oracle).calls,
        c.system ≠ articleAggSystemPrompt) := by
  constructor
  · intro h
    have hsel : selectResponses ctrl ch rs oracle =
        selectResponsesArticle ctrl ch (articleCandidates ctrl rs) oracle [] := by
      simp [selectResponses, h]
    rw [hsel]
    refine ⟨selectResponsesArticle_ctrl_outline ctrl ch _ oracle [], ?_⟩
    rcases selectResponsesArticle_calls_append ctrl ch (articleCandidates ctrl rs)
      oracle [] with ⟨extra, hcalls, hsys⟩
    rw [hcalls]
    intro c hc
    rw [List.nil_append] at hc
    rcases hsys c hc with h1 | h2
    · rw [h1]
      exact articleAgg_ne_outlineAgg
    · rw [h2]
      exact editing_ne_outlineAgg
  · intro h
    rcases selectResponses_cases ctrl ch rs oracle with
      ⟨_, hsel⟩ | ⟨_, _, hsel⟩ | ⟨r, _, _, hsel⟩
    · rw [hsel, h]
      rcases selectResponsesArticle_nil_frame ctrl ch oracle [] with ⟨hart, hcalls⟩
      refine ⟨hart, ?_⟩
      rw [hcalls]
      intro c hc
      rw [List.nil_append, List.mem_singleton] at hc
      rw [hc]
      exact editing_ne_articleAgg
    · rw [hsel]
      refine ⟨rfl, ?_⟩
      intro c hc
      rw [List.mem_singleton] at hc
      rw [hc]
      exact outlineAgg_ne_articleAgg
    · rw [hsel, h]
      rcases selectResponsesArticle_nil_frame { ctrl with outline := r } ch oracle
        [outlineMergeCall ctrl ch (outlineCandidates ctrl rs)] with ⟨hart, hcalls⟩
      refine ⟨hart, ?_⟩
      rw [hcalls]
      intro c hc
      rcases List.mem_append.mp hc with h1 | h2
      · rw [List.mem_singleton] at h1
        rw [h1]
        exact outlineAgg_ne_articleAgg
      · rw [List.mem_singleton] at h2
        rw [h2]
        exact editing_ne_articleAgg

/-- Witness for the C9 theorem at concrete inputs, exercising both empty
groups. -/
theorem aggregation_empty_groups_frame_witness :
    (outlineCandidates ctrlEx rsOnlyArticle = [] ∧
      (selectResponses ctrlEx chEx rsOnlyArticle oracleMerge).ctrl.outline =
        ctrlEx.outline) ∧
    (articleCandidates ctrlEx rsOnlyOutline = [] ∧
      (selectResponses ctrlEx chEx rsOnlyOutline oracleMerge).ctrl.article =
        ctrlEx.article) :=
  ⟨⟨by decide, ((aggregation_empty_groups_frame ctrlEx chEx rsOnlyArticle
      oracleMerge).1 (by decide)).1⟩,
   ⟨by decide, ((aggregation_empty_groups_frame ctrlEx chEx rsOnlyOutline
      oracleMerge).2 (by decide)).1⟩⟩

/-- C5 (counterexample): the claim says that when the oracle call for one
merge step fails, aggregation of the other field still proceeds
independently.  With both candidate groups non-empty and an oracle that
raises on the outline merge, the code aborts the whole aggregation step:
no article-merge request is ever issued, the article field keeps its
prior value, and the exception propagates. -/
theorem aggregation_failure_independence_cex :
    articleCandidates ctrlEx rsEx ≠ [] ∧
    (selectResponses ctrlEx chEx rsEx oracleOutlineFails).calls.filter
      (fun c => c.system == articleAggSystemPrompt) = [] ∧
    (selectResponses ctrlEx chEx rsEx oracleOutlineFails).ctrl.article =
      ctrlEx.article ∧
    (selectResponses ctrlEx chEx rsEx oracleOutlineFails).output = none := by
  refine ⟨by decide, ?_, ?_, ?_⟩ <;> decide

/-- C5 (amended): a failing merge call leaves the corresponding state
field — and every field not yet overwritten — at its prior value and
aborts the aggregation step, surfacing the failure to the caller (so a
failing outline merge also skips the article merge rather than letting it
proceed independently); in every case each merge is atomic: a state field
is either untouched or replaced by the full response of the merge request
that produced it. -/
theorem aggregation_failure_atomic (ctrl : Controller) (ch : List ChatEntry)
    (rs : List ScoredResult) (oracle : Oracle) :
    (outlineCandidates ctrl rs ≠ [] →
      oracle (outlineMergeCall ctrl ch (outlineCandidates ctrl rs)) = none →
      selectResponses ctrl ch rs oracle =
        ⟨ctrl, [outlineMergeCall ctrl ch (outlineCandidates ctrl rs)], none⟩) ∧
    (outlineCandidates ctrl rs = [] → articleCandidates ctrl rs ≠ [] →
      oracle (articleMergeCall ctrl ch (articleCandidates ctrl rs)) = none →
      selectResponses ctrl ch rs oracle =
        ⟨ctrl, [articleMergeCall ctrl ch (articleCandidates ctrl rs)], none⟩) ∧
    (∀ r, outlineCandidates ctrl rs ≠ [] →
      oracle (outlineMergeCall ctrl ch (outlineCandidates ctrl rs)) = some r →
      articleCandidates ctrl rs ≠ [] →
      oracle (articleMergeCall { ctrl with outline := r } ch
        (articleCandidates ctrl rs)) = none →
      selectResponses ctrl ch rs oracle =
        ⟨{ ctrl with outline := r },
         [outlineMergeCall ctrl ch (outlineCandidates ctrl rs),
          articleMergeCall { ctrl with outline := r } ch (articleCandidates ctrl rs)],
         none⟩) ∧
    ((selectResponses ctrl ch rs oracle).ctrl.outline = ctrl.outline ∨
      ∃ c ∈ (selectResponses ctrl ch rs oracle).calls,
        c.system = outlineAggSystemPrompt ∧
        oracle c = some (selectResponses ctrl ch rs oracle).ctrl.outline) ∧
    ((selectResponses ctrl ch rs oracle).ctrl.article = ctrl.article ∨
      ∃ c ∈ (selectResponses ctrl ch rs oracle).calls,
        c.system = articleAggSystemPrompt ∧
        oracle c = some (selectResponses ctrl ch rs oracle).ctrl.article) := by
  refine ⟨?_, ?_, ?_, ?_, ?_⟩
  · intro ho hfail
    simp only [selectResponses]
    rw [if_pos (List.length_pos.mpr ho), hfail]
  · intro ho ha hfail
    simp only [selectResponses]
    rw [ho]
    simp only [List.length_nil, gt_iff_lt, lt_self_iff_false, if_false]
    simp only [selectResponsesArticle]
    rw [if_pos (List.length_pos.mpr ha), hfail]
    rfl
  · intro r ho hok ha hfail
    simp only [selectResponses]
    rw [if_pos (List.length_pos.mpr ho), hok]
    simp only [selectResponsesArticle]
    rw [if_pos (List.length_pos.mpr ha), hfail]
    rfl
  · rcases selectResponses_cases ctrl ch rs oracle with
      ⟨_, hsel⟩ | ⟨_, _, hsel⟩ | ⟨r, _, hok, hsel⟩
    · rw [hsel]
      exact Or.inl (selectResponsesArticle_ctrl_outline ctrl ch _ oracle [])
    · rw [hsel]
      exact Or.inl rfl
    · rw [hsel]
      right
      refine ⟨outlineMergeCall ctrl ch (outlineCandidates ctrl rs), ?_, rfl, ?_⟩
      · rcases selectResponsesArticle_calls_append { ctrl with outline := r } ch
          (articleCandidates ctrl rs) oracle
          [outlineMergeCall ctrl ch (outlineCandidates ctrl rs)] with ⟨extra, hcalls, _⟩
        rw [hcalls]
        exact List.mem_append.mpr (Or.inl (List.mem_singleton.mpr rfl))
      · rw [selectResponsesArticle_ctrl_outline { ctrl with outline := r } ch _ oracle _]
        exact hok
  · rcases selectResponses_cases ctrl ch rs oracle with
      ⟨_, hsel⟩ | ⟨_, _, hsel⟩ | ⟨r, _, _, hsel⟩
    · rw [hsel]
      exact selectResponsesArticle_article_atomic ctrl ch _ oracle []
    · rw [hsel]
      exact Or.inl rfl
    · rw [hsel]
      rcases selectResponsesArticle_article_atomic { ctrl with outline := r } ch
        (articleCandidates ctrl rs) oracle
        [outlineMergeCall ctrl ch (outlineCandidates ctrl rs)] with h1 | ⟨c, hc, hsys, hor⟩
      · exact Or.inl h1
      · exact Or.inr ⟨c, hc, hsys, hor⟩

/-- Witness for the amended C5 theorem at a concrete input: a failing
outline merge aborts the step with both fields untouched. -/
theorem aggregation_failure_atomic_witness :
    outlineCandidates ctrlEx rsEx ≠ [] ∧
    oracleOutlineFails (outlineMergeCall ctrlEx chEx (outlineCandidates ctrlEx rsEx)) =
      none ∧
    selectResponses ctrlEx chEx rsEx oracleOutlineFails =
      ⟨ctrlEx, [outlineMergeCall ctrlEx chEx (outlineCandidates ctrlEx rsEx)], none⟩ :=
  ⟨by decide, by decide,
    (aggregation_failure_atomic ctrlEx chEx rsEx oracleOutlineFails).1
      (by decide) (by decide)⟩

end Council
